import Mathlib

set_option maxRecDepth 100000

/-!
# Verification of the blockchain-indexer core against its specification

This file gives a shallow embedding of the indexer's core (the
`BlockService` with its `addBlock` / `rollback` / `getBalance` operations,
the SQL repositories it drives, and the `calculateBlockId` hash helper)
and proves or refutes the specification's claims about it.

Modelling conventions:

* The PostgreSQL database is a value of type `St` (tables `blocks`,
  `outputs`, `balances` as lists of records, in insertion order, mirroring
  the schema in `src/database/schema.ts`).
* Queries issued through the transaction `client` operate on the pending
  (in-transaction) copy of the state; queries issued through the shared
  `pool` (a different connection, READ COMMITTED) see only the last
  committed state.  `OutputRepository.getUnspentOutput`,
  `BlockRepository.getCurrentHeight` and `BalanceRepository.getBalance`
  all use `getPool()`, so they are passed the committed state; every
  mutation (`INSERT`/`UPDATE`/`DELETE`) uses the `client` and therefore
  acts on the pending state.
* A primary-key violation on `INSERT` raises an error in `pg`;
  that surfaces as `Outcome.thrown` (the service's `catch` block issues
  `ROLLBACK` and rethrows, so the committed state is unchanged).
* `ValidationError` return values are modelled by the inductive `VErr`,
  whose constructors carry exactly the data interpolated into the
  code's message strings.
* Machine numbers (JS `number` / SQL `NUMERIC`) are modelled as `Int`
  for monetary values and `Nat` for heights and indices.
-/

/-! ## SHA-256 (`src/utils/crypto.ts` delegates to node's `crypto`) -/

/-- Truncate to a 32-bit word. -/
def w32 (x : Nat) : Nat := x % 4294967296

/-- 32-bit right rotation. -/
def rotr (n x : Nat) : Nat := w32 ((x >>> n) ||| (x <<< (32 - n)))

/-- SHA-256 `Ch` function. -/
def shaCh (x y z : Nat) : Nat := (x &&& y) ^^^ ((x ^^^ 4294967295) &&& z)

/-- SHA-256 `Maj` function. -/
def shaMaj (x y z : Nat) : Nat := (x &&& y) ^^^ (x &&& z) ^^^ (y &&& z)

/-- SHA-256 big sigma 0. -/
def bigSigma0 (x : Nat) : Nat := rotr 2 x ^^^ rotr 13 x ^^^ rotr 22 x

/-- SHA-256 big sigma 1. -/
def bigSigma1 (x : Nat) : Nat := rotr 6 x ^^^ rotr 11 x ^^^ rotr 25 x

/-- SHA-256 small sigma 0. -/
def smallSigma0 (x : Nat) : Nat := rotr 7 x ^^^ rotr 18 x ^^^ (x >>> 3)

/-- SHA-256 small sigma 1. -/
def smallSigma1 (x : Nat) : Nat := rotr 17 x ^^^ rotr 19 x ^^^ (x >>> 10)

/-- The 64 SHA-256 round constants. -/
def k256 : List Nat :=
  [1116352408, 1899447441, 3049323471, 3921009573, 961987163, 1508970993,
   2453635748, 2870763221, 3624381080, 310598401, 607225278, 1426881987,
   1925078388, 2162078206, 2614888103, 3248222580, 3835390401, 4022224774,
   264347078, 604807628, 770255983, 1249150122, 1555081692, 1996064986,
   2554220882, 2821834349, 2952996808, 3210313671, 3336571891, 3584528711,
   113926993, 338241895, 666307205, 773529912, 1294757372, 1396182291,
   1695183700, 1986661051, 2177026350, 2456956037, 2730485921, 2820302411,
   3259730800, 3345764771, 3516065817, 3600352804, 4094571909, 275423344,
   430227734, 506948616, 659060556, 883997877, 958139571, 1322822218,
   1537002063, 1747873779, 1955562222, 2024104815, 2227730452, 2361852424,
   2428436474, 2756734187, 3204031479, 3329325298]

/-- Initial SHA-256 hash value, as the 8-tuple of working variables. -/
structure Hash8 where
  a : Nat
  b : Nat
  c : Nat
  d : Nat
  e : Nat
  f : Nat
  g : Nat
  h : Nat
deriving DecidableEq, Repr

/-- SHA-256 initial state. -/
def sha256Init : Hash8 :=
  ⟨1779033703,
   3144134277,
   1013904242,
   2773480762,
   1359893119,
   2600822924,
   528734635,
   1541459225⟩

/-- One SHA-256 compression round. -/
def sha256Round (st : Hash8) (ki wi : Nat) : Hash8 :=
  let t1 := w32 (st.h + bigSigma1 st.e + shaCh st.e st.f st.g + ki + wi)
  let t2 := w32 (bigSigma0 st.a + shaMaj st.a st.b st.c)
  ⟨w32 (t1 + t2), st.a, st.b, st.c, w32 (st.d + t1), st.e, st.f, st.g⟩

/-- Extend the 16 message words to the 64-entry message schedule. -/
def sha256Schedule (ws : List Nat) : List Nat :=
  (List.range 48).foldl
    (fun w i =>
      let j := i + 16
      let nw := w32 (smallSigma1 (w.getD (j - 2) 0) + w.getD (j - 7) 0 +
                     smallSigma0 (w.getD (j - 15) 0) + w.getD (j - 16) 0)
      w ++ [nw]) ws

/-- Compress one 64-word-schedule block into the running hash. -/
def sha256Compress (h : Hash8) (ws : List Nat) : Hash8 :=
  let sched := sha256Schedule ws
  let st := (k256.zip sched).foldl (fun st kw => sha256Round st kw.1 kw.2) h
  ⟨w32 (h.a + st.a), w32 (h.b + st.b), w32 (h.c + st.c), w32 (h.d + st.d),
   w32 (h.e + st.e), w32 (h.f + st.f), w32 (h.g + st.g), w32 (h.h + st.h)⟩

/-- Big-endian bytes (most significant first) of width `n` bytes. -/
def beBytes : Nat → Nat → List Nat
  | 0, _ => []
  | n + 1, x => beBytes n (x >>> 8) ++ [x &&& 255]

/-- SHA-256 padding of a byte string. -/
def sha256Pad (msg : List Nat) : List Nat :=
  let z := (64 - (msg.length + 9) % 64) % 64
  msg ++ [128] ++ List.replicate z 0 ++ beBytes 8 (8 * msg.length)

/-- Group a list of bytes into big-endian 32-bit words (length a multiple of 4). -/
def bytesToWords : List Nat → List Nat
  | b0 :: b1 :: b2 :: b3 :: rest =>
      (((b0 <<< 8 ||| b1) <<< 8 ||| b2) <<< 8 ||| b3) :: bytesToWords rest
  | _ => []

/-- Split a word list into 16-word blocks (structural recursion on a fuel
bound so the kernel can evaluate it). -/
def wordBlocksGo : Nat → List Nat → List (List Nat)
  | 0, _ => []
  | _ + 1, [] => []
  | fuel + 1, w :: ws => ((w :: ws).take 16) :: wordBlocksGo fuel ((w :: ws).drop 16)

/-- Split a word list into 16-word blocks. -/
def wordBlocks (ws : List Nat) : List (List Nat) := wordBlocksGo ws.length ws

/-- UTF-8 encoding of one character. -/
def utf8Char (c : Char) : List Nat :=
  let n := c.toNat
  if n < 128 then [n]
  else if n < 2048 then [192 ||| (n >>> 6), 128 ||| (n &&& 63)]
  else if n < 65536 then
    [224 ||| (n >>> 12), 128 ||| ((n >>> 6) &&& 63), 128 ||| (n &&& 63)]
  else
    [240 ||| (n >>> 18), 128 ||| ((n >>> 12) &&& 63), 128 ||| ((n >>> 6) &&& 63), 128 ||| (n &&& 63)]

/-- UTF-8 bytes of a string. -/
def utf8Bytes (s : String) : List Nat := (s.data.map utf8Char).flatten

/-- Hex digit character for a nibble. -/
def hexDigit (n : Nat) : Char := if n < 10 then Char.ofNat (48 + n) else Char.ofNat (87 + n)

/-- Lowercase-hex rendering of one 32-bit word. -/
def wordToHex (x : Nat) : String :=
  String.mk ((List.range 8).map (fun i => hexDigit ((x >>> (28 - 4 * i)) &&& 15)))

/-- SHA-256 of a string, as lowercase hex (the behaviour of node's
`crypto.createHash('sha256').update(data).digest('hex')`). -/
def sha256Hex (s : String) : String :=
  let blocks := wordBlocks (bytesToWords (sha256Pad (utf8Bytes s)))
  let hfin := blocks.foldl sha256Compress sha256Init
  String.join ([hfin.a, hfin.b, hfin.c, hfin.d, hfin.e, hfin.f, hfin.g, hfin.h].map wordToHex)

example : sha256Hex "abc" = "ba7816bf8f01cfea414140de5dae2223b00361a396177a9cb410ff61f20015ad" := by
  decide

example : sha256Hex "1tx1" = "d1582b9e2cac15e170c39ef2e85855ffd7e6a820550a8ca16a2f016d366503dc" := by
  decide

/-! ## Data model (`src/interfaces/index.ts` and `src/database/schema.ts`) -/

/-- A transaction output as submitted in a block (`Output` interface). -/
structure TxOutput where
  address : String
  value : Int
deriving DecidableEq, Repr

/-- A transaction input (`Input` interface): a `(txId, index)` reference. -/
structure TxInput where
  txId : String
  index : Nat
deriving DecidableEq, Repr

/-- A transaction (`Transaction` interface). -/
structure Transaction where
  id : String
  inputs : List TxInput
  outputs : List TxOutput
deriving DecidableEq, Repr

/-- A candidate block (`Block` interface). -/
structure Block where
  id : String
  height : Nat
  transactions : List Transaction
deriving DecidableEq, Repr

/-- A row of the `outputs` table (schema in `createTables`): primary key
`(tx_id, output_index)`; `spent` defaults to false; `spent_by_tx` and
`spent_at_height` are nullable. -/
structure OutputRecord where
  tx_id : String
  output_index : Nat
  address : String
  value : Int
  block_height : Nat
  spent : Bool
  spent_by_tx : Option String
  spent_at_height : Option Nat
deriving DecidableEq, Repr

/-- A row of the `blocks` table: `id TEXT PRIMARY KEY, height INTEGER UNIQUE`. -/
structure BlockRecord where
  id : String
  height : Nat
deriving DecidableEq, Repr

/-- A row of the `balances` table: `address TEXT PRIMARY KEY, balance NUMERIC`. -/
structure BalanceRow where
  address : String
  balance : Int
deriving DecidableEq, Repr

/-- The (committed or in-transaction) database state: the three tables,
rows in insertion order. -/
structure St where
  blocks : List BlockRecord
  outputs : List OutputRecord
  balances : List BalanceRow
deriving DecidableEq, Repr

/-- The empty database (state after `createTables`). -/
def St.empty : St := ⟨[], [], []⟩

/-- The `ValidationError` values produced by `BlockService`, one constructor
per distinct message template, carrying the data interpolated into the
message string. -/
inductive VErr where
  | invalidHeight (expected got : Nat)
  | invalidBlockId (expected got : String)
  | unspentOutputNotFound (txId : String) (index : Nat)
  | unbalancedTransaction (inputSum outputSum : Int) (txId : String)
  | targetAboveCurrent
deriving DecidableEq, Repr

/-- Result of a service call: `ok` is a successful `COMMIT` with the new
committed state; `rejected` is a returned `ValidationError` (the open
transaction was rolled back or had performed no writes, so the committed
state is unchanged); `thrown` is a raised storage error (`pg` constraint
violation) — the `catch` block issues `ROLLBACK` and rethrows, so the
committed state is unchanged. -/
inductive Outcome (σ : Type) where
  | ok (s : σ)
  | rejected (e : VErr)
  | thrown
deriving DecidableEq, Repr

/-- Whether a call committed successfully. -/
def Outcome.isOk {σ : Type} : Outcome σ → Bool
  | .ok _ => true
  | _ => false

/-! ## Repositories (`src/database/repositories/*.ts`)

Each function is annotated with the connection it runs on in the source:
`pool` = a fresh connection from the shared pool (sees only committed
data, READ COMMITTED), `client` = the transaction connection of the
ongoing `addBlock`/`rollback` call (sees and makes pending writes). -/

/-- `BlockRepository.getCurrentHeight` — `SELECT MAX(height) FROM blocks`,
`NULL` coalesced to 0 (**pool**). -/
def getCurrentHeight (s : St) : Nat :=
  s.blocks.foldr (fun b m => max b.height m) 0

/-- `OutputRepository.getUnspentOutput` — `SELECT … FROM outputs WHERE
tx_id = $1 AND output_index = $2 AND spent = false` (**pool**: reads only
the committed state, not the open transaction's writes). -/
def getUnspentOutput (s : St) (txId : String) (index : Nat) : Option OutputRecord :=
  s.outputs.find? (fun o => o.tx_id == txId && o.output_index == index && o.spent == false)

/-- `OutputRepository.markOutputAsSpent` — `UPDATE outputs SET spent = true,
spent_by_tx = $3, spent_at_height = $4 WHERE tx_id = $1 AND output_index = $2`
(**client**). -/
def markOutputAsSpent (os : List OutputRecord) (txId : String) (index : Nat)
    (spentByTx : String) (spentAtHeight : Nat) : List OutputRecord :=
  os.map (fun o =>
    if o.tx_id == txId && o.output_index == index then
      { o with spent := true, spent_by_tx := some spentByTx, spent_at_height := some spentAtHeight }
    else o)

/-- `OutputRepository.insertOutput` — `INSERT INTO outputs … VALUES
($1,…,$6)` with `spent = false` (**client**); `none` models the `pg`
primary-key-violation error when `(tx_id, output_index)` already exists. -/
def insertOutput (os : List OutputRecord) (txId : String) (outputIndex : Nat)
    (address : String) (value : Int) (blockHeight : Nat) : Option (List OutputRecord) :=
  if os.any (fun o => o.tx_id == txId && o.output_index == outputIndex) then none
  else some (os ++ [⟨txId, outputIndex, address, value, blockHeight, false, none, none⟩])

/-- `BlockRepository.insertBlock` — `INSERT INTO blocks (id, height)`
(**client**); `none` models the constraint error when the primary key `id`
or the unique `height` already exists. -/
def insertBlock (bs : List BlockRecord) (id : String) (height : Nat) :
    Option (List BlockRecord) :=
  if bs.any (fun b => b.id == id || b.height == height) then none
  else some (bs ++ [⟨id, height⟩])

/-- `BlockRepository.deleteBlocksAboveHeight` — `DELETE FROM blocks WHERE
height > $1` (**client**). -/
def deleteBlocksAboveHeight (bs : List BlockRecord) (height : Nat) : List BlockRecord :=
  bs.filter (fun b => !(height < b.height))

/-- `OutputRepository.deleteOutputsAboveHeight` — `DELETE FROM outputs WHERE
block_height > $1` (**client**). -/
def deleteOutputsAboveHeight (os : List OutputRecord) (height : Nat) : List OutputRecord :=
  os.filter (fun o => !(height < o.block_height))

/-- `BalanceRepository.updateBalance` — `INSERT INTO balances (address,
balance) VALUES ($1, $2) ON CONFLICT (address) DO UPDATE SET balance =
balances.balance + $2` (**client**). -/
def updateBalance (bs : List BalanceRow) (address : String) (delta : Int) : List BalanceRow :=
  if bs.any (fun r => r.address == address) then
    bs.map (fun r => if r.address == address then { r with balance := r.balance + delta } else r)
  else bs ++ [⟨address, delta⟩]

/-- `BalanceRepository.getBalance` — `SELECT balance FROM balances WHERE
address = $1`, missing row read as 0 (**pool**). -/
def getBalance (s : St) (address : String) : Int :=
  match s.balances.find? (fun r => r.address == address) with
  | some r => r.balance
  | none => 0

/-! ## `calculateBlockId` (`src/utils/crypto.ts`) -/

/-- `calculateBlockId(height, transactions)` — concatenates the decimal
string of `height` with every transaction id in order and hashes with
SHA-256, returning lowercase hex. -/
def calculateBlockId (height : Nat) (transactions : List Transaction) : String :=
  sha256Hex (toString height ++ String.join (transactions.map (fun tx => tx.id)))

/-! ## `BlockService` (`src/services/blockService.ts`)

`addBlock` runs inside one `BEGIN`/`COMMIT` on a dedicated `client`
connection; **all** reads it performs (`getCurrentHeight`,
`getUnspentOutput`) go through the pool, i.e. the `committed` state, while
all writes go to the pending state, which becomes the committed state only
on `COMMIT`. -/

/-- The intermediate result of one of `processTransaction`'s two loops:
the pending `outputs` and `balances` tables plus the running value sum
(`inputSum` resp. `outputSum`). -/
structure LoopResult where
  outputs : List OutputRecord
  balances : List BalanceRow
  total : Int
deriving DecidableEq, Repr

/-- The input loop of `BlockService.processTransaction`: for each input in
order, look up the referenced output in the **committed** state via
`getUnspentOutput`; on `null`, return the "Input references non-existent
or already spent output" validation error; otherwise accumulate its value
into `inputSum`, mark it spent in the pending state and debit the
referenced output's address. -/
def processInputs (committed : St) (txId : String) (blockHeight : Nat) :
    List TxInput → List OutputRecord → List BalanceRow → Int → Outcome LoopResult
  | [], os, bs, inputSum => .ok ⟨os, bs, inputSum⟩
  | i :: rest, os, bs, inputSum =>
    match getUnspentOutput committed i.txId i.index with
    | none => .rejected (.unspentOutputNotFound i.txId i.index)
    | some output =>
      processInputs committed txId blockHeight rest
        (markOutputAsSpent os i.txId i.index txId blockHeight)
        (updateBalance bs output.address (-output.value))
        (inputSum + output.value)

/-- The output loop of `BlockService.processTransaction`: for the `i`-th
output, accumulate its value into `outputSum`, insert a new `outputs` row
(a duplicate `(tx_id, output_index)` raises the primary-key error, i.e.
`thrown`) and credit the output's address. -/
def processOutputs (txId : String) (blockHeight : Nat) :
    List TxOutput → Nat → List OutputRecord → List BalanceRow → Int → Outcome LoopResult
  | [], _, os, bs, outputSum => .ok ⟨os, bs, outputSum⟩
  | o :: rest, i, os, bs, outputSum =>
    match insertOutput os txId i o.address o.value blockHeight with
    | none => .thrown
    | some os' =>
      processOutputs txId blockHeight rest (i + 1) os'
        (updateBalance bs o.address o.value) (outputSum + o.value)

/-- `BlockService.processTransaction`: run the input loop, then the output
loop, then — if `inputs` is non-empty and `inputSum ≠ outputSum` — return
the "Input sum does not equal output sum" validation error; otherwise
succeed with the updated pending state. -/
def processTransaction (committed pending : St) (tx : Transaction) (blockHeight : Nat) :
    Outcome St :=
  match processInputs committed tx.id blockHeight tx.inputs pending.outputs pending.balances 0 with
  | .rejected e => .rejected e
  | .thrown => .thrown
  | .ok ri =>
    match processOutputs tx.id blockHeight tx.outputs 0 ri.outputs ri.balances 0 with
    | .rejected e => .rejected e
    | .thrown => .thrown
    | .ok ro =>
      if tx.inputs.length > 0 ∧ ri.total ≠ ro.total then
        .rejected (.unbalancedTransaction ri.total ro.total tx.id)
      else
        .ok { pending with outputs := ro.outputs, balances := ro.balances }

/-- The transaction loop of `BlockService.addBlock`, in submission order;
the first validation error aborts (the service issues `ROLLBACK`). -/
def processTxs (committed : St) (blockHeight : Nat) :
    List Transaction → St → Outcome St
  | [], pending => .ok pending
  | tx :: rest, pending =>
    match processTransaction committed pending tx blockHeight with
    | .ok pending' => processTxs committed blockHeight rest pending'
    | .rejected e => .rejected e
    | .thrown => .thrown

/-- `BlockService.addBlock`: check the height (read through the pool)
against `currentHeight + 1`, check the id against `calculateBlockId`,
insert the block row, process every transaction in order, then `COMMIT`;
any validation error or storage error leaves the committed state
unchanged. -/
def addBlock (committed : St) (block : Block) : Outcome St :=
  let currentHeight := getCurrentHeight committed
  if block.height ≠ currentHeight + 1 then
    .rejected (.invalidHeight (currentHeight + 1) block.height)
  else
    let expectedId := calculateBlockId block.height block.transactions
    if block.id ≠ expectedId then
      .rejected (.invalidBlockId expectedId block.id)
    else
      match insertBlock committed.blocks block.id block.height with
      | none => .thrown
      | some blocks' =>
        processTxs committed block.height block.transactions
          { committed with blocks := blocks' }

/-- The regrouping `INSERT INTO balances … SELECT address, SUM(value) FROM
outputs WHERE block_height <= $1 AND spent = false GROUP BY address` that
`BlockService.rollback` runs after `TRUNCATE balances` (on the `client`,
so over the pending outputs table). -/
def recomputeBalances (os : List OutputRecord) (targetHeight : Nat) : List BalanceRow :=
  let sel := os.filter (fun o => o.block_height ≤ targetHeight && o.spent == false)
  ((sel.map (fun o => o.address)).eraseDups).map
    (fun a => ⟨a, (sel.filter (fun o => o.address == a)).foldr (fun o acc => o.value + acc) 0⟩)

/-- The per-row effect of rollback's `UPDATE outputs SET spent = false,
spent_by_tx = NULL, spent_at_height = NULL WHERE spent_at_height > $1`
(a `NULL` `spent_at_height` never satisfies the `>` comparison). -/
def rollbackReset (targetHeight : Nat) (o : OutputRecord) : OutputRecord :=
  if o.spent_at_height.any (fun k => targetHeight < k) then
    { o with spent := false, spent_by_tx := none, spent_at_height := none }
  else o

/-- `BlockService.rollback`: reject targets above the current height
(read through the pool); otherwise, atomically un-spend every output with
`spent_at_height > target` (clearing `spent_by_tx`/`spent_at_height`),
delete outputs and blocks above the target, truncate `balances` and
rebuild it from the remaining unspent outputs, then `COMMIT`. -/
def rollback (committed : St) (targetHeight : Nat) : Outcome St :=
  let currentHeight := getCurrentHeight committed
  if targetHeight > currentHeight then
    .rejected .targetAboveCurrent
  else
    let unspent := committed.outputs.map (rollbackReset targetHeight)
    let kept := deleteOutputsAboveHeight unspent targetHeight
    let blocks' := deleteBlocksAboveHeight committed.blocks targetHeight
    .ok ⟨blocks', kept, recomputeBalances kept targetHeight⟩

/-! ## Reachable states -/

/-- The committed state after a call, as the HTTP layer sees it: an `ok`
result replaces the committed state, a `rejected` or `thrown` result
leaves it unchanged. -/
def applyAdd (s : St) (b : Block) : St :=
  match addBlock s b with
  | .ok s' => s'
  | _ => s

/-- Committed state after a `rollback` call. -/
def applyRollback (s : St) (t : Nat) : St :=
  match rollback s t with
  | .ok s' => s'
  | _ => s

/-- States reachable from the empty database by any sequence of
`addBlock` and `rollback` calls. -/
inductive Reachable : St → Prop where
  | empty : Reachable St.empty
  | add (b : Block) {s : St} : Reachable s → Reachable (applyAdd s b)
  | rb (t : Nat) {s : St} : Reachable s → Reachable (applyRollback s t)

/-! ## Specification-side definitions (stated from the spec's words, for
comparison with the implementation) -/

/-- Modelled from the spec (§3, Balance record): the sum of `value` over
all outputs of an address with `spent == false` and
`createdAtHeight <= currentHeight`. -/
def specLedgerBalance (s : St) (address : String) : Int :=
  ((s.outputs.filter (fun o =>
      o.address == address && o.spent == false &&
      o.block_height ≤ getCurrentHeight s)).map (fun o => o.value)).sum

/-- Sum of the committed values referenced by a transaction's inputs (the
`inputSum` the code accumulates, given every lookup succeeds against the
committed state `s`). -/
def inputSumOf (s : St) (inputs : List TxInput) : Int :=
  (inputs.map (fun i =>
    match getUnspentOutput s i.txId i.index with
    | some o => o.value
    | none => 0)).sum

/-- Sum of a transaction's declared output values (the code's `outputSum`). -/
def outputSumOf (outputs : List TxOutput) : Int :=
  (outputs.map (fun o => o.value)).sum

/-! ## Concrete blocks used in witnesses and counterexamples

The block ids are the genuine SHA-256 digests of the corresponding
strings (`"1tx1"`, `"2tx2"`, `"3"`, `"1tx1tx2"`, `"2tx1"`), so each block
passes the code's id check. -/

/-- Coinbase transaction `tx1`: mints 100 to `addr1`. -/
def tx1ex : Transaction := ⟨"tx1", [], [⟨"addr1", 100⟩]⟩

/-- Block 1: just `tx1`. -/
def b1ex : Block :=
  ⟨"d1582b9e2cac15e170c39ef2e85855ffd7e6a820550a8ca16a2f016d366503dc", 1, [tx1ex]⟩

/-- `tx2` variant that spends `tx1:0` **twice** in the same transaction. -/
def tx2dsEx : Transaction := ⟨"tx2", [⟨"tx1", 0⟩, ⟨"tx1", 0⟩], [⟨"addr2", 200⟩]⟩

/-- Block 2 (double spend): one transaction spending `tx1:0` twice. -/
def b2dsEx : Block :=
  ⟨"c4701d0bfd7179e1db6e33e947e6c718bbc4a1ae927300cd1e3bda91a930cba5", 2, [tx2dsEx]⟩

/-- Block 3: empty transaction list. -/
def b3ex : Block :=
  ⟨"4e07408562bedb8b60ce05c1decfe3ad16b72230967de01f640b7e4729b49fce", 3, []⟩

/-- `tx2` variant that spends `tx1:0` once, 60 to `addr2` and 40 to `addr3`. -/
def tx2nEx : Transaction := ⟨"tx2", [⟨"tx1", 0⟩], [⟨"addr2", 60⟩, ⟨"addr3", 40⟩]⟩

/-- Block 2 (well-formed spend). -/
def b2nEx : Block :=
  ⟨"c4701d0bfd7179e1db6e33e947e6c718bbc4a1ae927300cd1e3bda91a930cba5", 2, [tx2nEx]⟩

/-- `tx2` variant that is unbalanced: spends 100, emits 150. -/
def tx2badEx : Transaction := ⟨"tx2", [⟨"tx1", 0⟩], [⟨"addr2", 150⟩]⟩

/-- Block 2 (unbalanced transaction). -/
def b2badEx : Block :=
  ⟨"c4701d0bfd7179e1db6e33e947e6c718bbc4a1ae927300cd1e3bda91a930cba5", 2, [tx2badEx]⟩

/-- `tx2` variant that chains on `tx1` inside the same block. -/
def tx2chainEx : Transaction := ⟨"tx2", [⟨"tx1", 0⟩], [⟨"addr2", 100⟩]⟩

/-- Block 1 (intra-block chain): `tx1` mints, `tx2` spends `tx1:0` in the
same block. -/
def bChainEx : Block :=
  ⟨"74a9608142770b46c9eec3f39f41b4fb38d8d7f4063ac5676ccc2ed1d670c92b", 1, [tx1ex, tx2chainEx]⟩

/-- Block 2 (duplicate output identity): re-submits a transaction with id
`tx1`, so its output collides with the existing `(tx1, 0)` row. -/
def b2dupEx : Block :=
  ⟨"b68c0cfb1305c636d83f28b7c033e26a155aabf427ccb25ee6d551a139908192", 2,
   [⟨"tx1", [], [⟨"addrX", 5⟩]⟩]⟩

/-- Committed state after accepting block 1. -/
def s1ex : St := applyAdd St.empty b1ex

/-- Committed state after accepting blocks 1 and 2 (double spend). -/
def s2dsEx : St := applyAdd s1ex b2dsEx

/-- Committed state after accepting blocks 1, 2 (double spend) and 3. -/
def s3dsEx : St := applyAdd s2dsEx b3ex

example : (addBlock St.empty b1ex).isOk = true := by decide
example : getBalance s1ex "addr1" = 100 := by decide
example : (addBlock s1ex b2dsEx).isOk = true := by decide
example : getBalance s2dsEx "addr1" = -100 := by decide
example : getBalance s2dsEx "addr2" = 200 := by decide
example : (addBlock s2dsEx b3ex).isOk = true := by decide
example : getBalance (applyRollback s3dsEx 2) "addr1" = 0 := by decide
example : addBlock St.empty bChainEx = .rejected (.unspentOutputNotFound "tx1" 0) := by decide
example : addBlock s1ex b2dupEx = .thrown := by decide
example : addBlock s1ex b2badEx = .rejected (.unbalancedTransaction 100 150 "tx2") := by decide
example : (addBlock s1ex b2nEx).isOk = true := by decide
example : getBalance (applyAdd s1ex b2nEx) "addr2" = 60 := by decide

/-! ## Basic lemmas about the repository functions -/

/-- Generalised-accumulator form of `getCurrentHeight`. -/
theorem foldr_maxHeight_eq (bs : List BlockRecord) (c : Nat) :
    bs.foldr (fun b m => max b.height m) c = max ((bs.map (fun b => b.height)).foldr max 0) c := by
  induction bs generalizing c with
  | nil => simp
  | cons b bs ih => simp [ih, Nat.max_assoc]

/-- Every block height is bounded by `getCurrentHeight`. -/
theorem height_le_getCurrentHeight (s : St) (b : BlockRecord) (hb : b ∈ s.blocks) :
    b.height ≤ getCurrentHeight s := by
  obtain ⟨bs, os, bal⟩ := s
  simp only [getCurrentHeight]
  induction bs with
  | nil => cases hb
  | cons hd tl ih =>
    rcases List.mem_cons.mp hb with h | h
    · subst h; simp [Nat.le_max_left]
    · exact le_trans (ih h) (by simp [Nat.le_max_right])

/-- Folding `max` over `List.range' 1 n`. -/
theorem foldr_max_range' (n : Nat) (c : Nat) :
    (List.range' 1 n).foldr max c = max n c := by
  induction n generalizing c with
  | zero => simp
  | succ n ih =>
    rw [List.range'_concat, List.foldr_append]
    simp only [List.foldr]
    rw [ih]
    omega

/-- `getCurrentHeight` of a state whose block heights are `1..n` is `n`. -/
theorem getCurrentHeight_of_range (s : St) (n : Nat)
    (h : s.blocks.map (fun b => b.height) = List.range' 1 n) :
    getCurrentHeight s = n := by
  simp only [getCurrentHeight]
  rw [foldr_maxHeight_eq, h, foldr_max_range']
  omega

/-- Filtering heights through a `BlockRecord` list commutes with `map`. -/
theorem map_height_filter (bs : List BlockRecord) (p : Nat → Bool) :
    (bs.filter (fun b => p b.height)).map (fun b => b.height)
      = (bs.map (fun b => b.height)).filter p := by
  induction bs with
  | nil => rfl
  | cons b bs ih =>
    by_cases h : p b.height <;> simp [List.filter_cons, h, ih]

/-- Filtering `1..n` down to the values `≤ t` yields `1..t` when `t ≤ n`. -/
theorem filter_range'_le (n t : Nat) (h : t ≤ n) :
    (List.range' 1 n).filter (fun x => !(decide (t < x))) = List.range' 1 t := by
  induction n with
  | zero => have : t = 0 := Nat.le_zero.mp h; subst this; rfl
  | succ n ih =>
    rcases Nat.lt_or_ge t (n + 1) with h' | h'
    · have ht : t ≤ n := Nat.lt_succ_iff.mp h'
      rw [List.range'_concat, List.filter_append, ih ht]
      have : (t < 1 + n) := by omega
      simp [this]
    · have ht : t = n + 1 := Nat.le_antisymm h h'
      subst ht
      rw [List.filter_eq_self.mpr]
      intro x hx
      have := List.mem_range'_1.mp hx
      simp only [Bool.not_eq_eq_eq_not, Bool.not_true, decide_eq_false_iff_not]
      omega

/-! ## Structural lemmas about the transaction-processing pipeline -/

/-- `processTransaction` never touches the `blocks` table. -/
theorem processTransaction_blocks {c p : St} {tx : Transaction} {h : Nat} {p' : St}
    (hp : processTransaction c p tx h = .ok p') : p'.blocks = p.blocks := by
  unfold processTransaction at hp
  split at hp
  · cases hp
  · cases hp
  · split at hp
    · cases hp
    · cases hp
    · split at hp
      · cases hp
      · cases hp; rfl

/-- `processTxs` never touches the `blocks` table. -/
theorem processTxs_blocks {c : St} {h : Nat} :
    ∀ {txs : List Transaction} {p p' : St},
      processTxs c h txs p = .ok p' → p'.blocks = p.blocks := by
  intro txs
  induction txs with
  | nil => intro p p' hp; cases hp; rfl
  | cons tx rest ih =>
    intro p p' hp
    unfold processTxs at hp
    split at hp
    case h_1 p₁ heq => exact (ih hp).trans (processTransaction_blocks heq)
    · cases hp
    · cases hp

/-- Elimination principle for a successful `addBlock`: the height and id
checks passed, the block row was appended, and the transaction loop
committed. -/
theorem addBlock_ok_elim {s : St} {b : Block} {s' : St}
    (h : addBlock s b = .ok s') :
    b.height = getCurrentHeight s + 1 ∧
    b.id = calculateBlockId b.height b.transactions ∧
    processTxs s b.height b.transactions
      { s with blocks := s.blocks ++ [⟨b.id, b.height⟩] } = .ok s' ∧
    s'.blocks = s.blocks ++ [⟨b.id, b.height⟩] := by
  by_cases hh : b.height = getCurrentHeight s + 1
  · by_cases hid : b.id = calculateBlockId b.height b.transactions
    · simp only [addBlock] at h
      rw [if_neg (not_not_intro hh), if_neg (not_not_intro hid)] at h
      split at h
      · cases h
      · rename_i blocks' hins
        have hb : blocks' = s.blocks ++ [⟨b.id, b.height⟩] := by
          unfold insertBlock at hins
          split at hins
          · cases hins
          · cases hins; rfl
        subst hb
        exact ⟨hh, hid, h, processTxs_blocks h⟩
    · simp only [addBlock] at h
      rw [if_neg (not_not_intro hh), if_pos hid] at h
      cases h
  · simp only [addBlock] at h
    rw [if_pos hh] at h
    cases h

/-- A rejecting `processInputs` always reports `unspentOutputNotFound`. -/
theorem processInputs_rejected {c : St} {txId : String} {bh : Nat} :
    ∀ {inputs : List TxInput} {os bs acc e},
      processInputs c txId bh inputs os bs acc = .rejected e →
      ∃ t i, e = .unspentOutputNotFound t i := by
  intro inputs
  induction inputs with
  | nil => intro os bs acc e h; cases h
  | cons i rest ih =>
    intro os bs acc e h
    unfold processInputs at h
    split at h
    · cases h; exact ⟨_, _, rfl⟩
    · exact ih h

/-- `processOutputs` never returns a validation error. -/
theorem processOutputs_ne_rejected {txId : String} {bh : Nat} :
    ∀ {outs : List TxOutput} {i os bs acc e},
      processOutputs txId bh outs i os bs acc ≠ .rejected e := by
  intro outs
  induction outs with
  | nil => intro i os bs acc e h; cases h
  | cons o rest ih =>
    intro i os bs acc e h
    unfold processOutputs at h
    split at h
    · cases h
    · exact ih h

/-- A rejecting `processTransaction` reports either `unspentOutputNotFound`
or `unbalancedTransaction`. -/
theorem processTransaction_rejected {c p : St} {tx : Transaction} {h : Nat} {e : VErr}
    (hp : processTransaction c p tx h = .rejected e) :
    (∃ t i, e = .unspentOutputNotFound t i) ∨
    (∃ a b t, e = .unbalancedTransaction a b t) := by
  unfold processTransaction at hp
  split at hp
  · cases hp; rename_i heq; exact .inl (processInputs_rejected heq)
  · cases hp
  · split at hp
    · cases hp; rename_i heq; exact absurd heq processOutputs_ne_rejected
    · cases hp
    · split at hp
      · cases hp; exact .inr ⟨_, _, _, rfl⟩
      · cases hp

/-- A rejecting transaction loop reports either `unspentOutputNotFound`
or `unbalancedTransaction`. -/
theorem processTxs_rejected {c : St} {h : Nat} :
    ∀ {txs : List Transaction} {p e},
      processTxs c h txs p = .rejected e →
      (∃ t i, e = .unspentOutputNotFound t i) ∨
      (∃ a b t, e = .unbalancedTransaction a b t) := by
  intro txs
  induction txs with
  | nil => intro p e hp; cases hp
  | cons tx rest ih =>
    intro p e hp
    unfold processTxs at hp
    split at hp
    · exact ih hp
    · cases hp; rename_i heq; exact processTransaction_rejected heq
    · cases hp

/-! ## Conservation lemmas -/

/-- A successful input loop accumulates exactly the committed values of
the referenced outputs. -/
theorem processInputs_ok_sum {c : St} {txId : String} {bh : Nat} :
    ∀ {inputs : List TxInput} {os bs acc r},
      processInputs c txId bh inputs os bs acc = .ok r →
      r.total = acc + inputSumOf c inputs := by
  intro inputs
  induction inputs with
  | nil =>
    intro os bs acc r h
    cases h; simp [inputSumOf]
  | cons i rest ih =>
    intro os bs acc r h
    unfold processInputs at h
    split at h
    · cases h
    · rename_i output hlook
      have := ih h
      simp only [inputSumOf, List.map_cons, List.sum_cons, hlook] at *
      omega

/-- A successful output loop accumulates exactly the declared output
values. -/
theorem processOutputs_ok_sum {txId : String} {bh : Nat} :
    ∀ {outs : List TxOutput} {i os bs acc r},
      processOutputs txId bh outs i os bs acc = .ok r →
      r.total = acc + outputSumOf outs := by
  intro outs
  induction outs with
  | nil =>
    intro i os bs acc r h
    cases h; simp [outputSumOf]
  | cons o rest ih =>
    intro i os bs acc r h
    unfold processOutputs at h
    split at h
    · cases h
    · have := ih h
      simp only [outputSumOf, List.map_cons, List.sum_cons] at *
      omega

/-- A transaction accepted by `processTransaction` with at least one input
conserves value: the committed input sum equals the declared output sum. -/
theorem processTransaction_conserves {c p : St} {tx : Transaction} {bh : Nat} {p' : St}
    (h : processTransaction c p tx bh = .ok p') (hne : tx.inputs ≠ []) :
    inputSumOf c tx.inputs = outputSumOf tx.outputs := by
  unfold processTransaction at h
  split at h
  · cases h
  · cases h
  · rename_i ri hin
    split at h
    · cases h
    · cases h
    · rename_i ro hout
      have hiS := processInputs_ok_sum hin
      have hoS := processOutputs_ok_sum hout
      by_cases hcond : tx.inputs.length > 0 ∧ ri.total ≠ ro.total
      · rw [if_pos hcond] at h; cases h
      · push_neg at hcond
        have hlen : tx.inputs.length > 0 := List.length_pos.mpr hne
        have := hcond hlen
        omega

/-- Every transaction accepted somewhere in the transaction loop with at
least one input conserves value. -/
theorem processTxs_conserves {c : St} {bh : Nat} :
    ∀ {txs : List Transaction} {p p' : St},
      processTxs c bh txs p = .ok p' →
      ∀ tx ∈ txs, tx.inputs ≠ [] →
        inputSumOf c tx.inputs = outputSumOf tx.outputs := by
  intro txs
  induction txs with
  | nil => intro p p' h tx htx; cases htx
  | cons t rest ih =>
    intro p p' h tx htx hne
    unfold processTxs at h
    split at h
    · rename_i p₁ heq
      rcases List.mem_cons.mp htx with rfl | hmem
      · exact processTransaction_conserves heq hne
      · exact ih h tx hmem hne
    · cases h
    · cases h

/-! ## Height-bound invariant on the outputs table -/

/-- Every output row was created at height at most `m`, and spent (if at
all) at height at most `m`. -/
def OBound (m : Nat) (os : List OutputRecord) : Prop :=
  ∀ o ∈ os, o.block_height ≤ m ∧ ∀ k, o.spent_at_height = some k → k ≤ m

theorem OBound_mono {m m' : Nat} {os : List OutputRecord}
    (h : OBound m os) (hm : m ≤ m') : OBound m' os := by
  intro o ho
  obtain ⟨h1, h2⟩ := h o ho
  exact ⟨le_trans h1 hm, fun k hk => le_trans (h2 k hk) hm⟩

theorem OBound_mark {m : Nat} {os : List OutputRecord} {txId : String} {idx : Nat}
    {sp : String} {sh : Nat} (h : OBound m os) (hsh : sh ≤ m) :
    OBound m (markOutputAsSpent os txId idx sp sh) := by
  intro o ho
  obtain ⟨o₀, ho₀, rfl⟩ := List.mem_map.mp ho
  obtain ⟨h1, h2⟩ := h o₀ ho₀
  by_cases hc : (o₀.tx_id == txId && o₀.output_index == idx) = true
  · simp only [hc, if_true]
    exact ⟨h1, fun k hk => by simp at hk; omega⟩
  · simp only [hc, if_false]
    exact ⟨h1, h2⟩

theorem OBound_insert {m : Nat} {os os' : List OutputRecord} {txId : String} {idx : Nat}
    {addr : String} {v : Int} {bh : Nat} (h : OBound m os) (hbh : bh ≤ m)
    (hins : insertOutput os txId idx addr v bh = some os') : OBound m os' := by
  unfold insertOutput at hins
  split at hins
  · cases hins
  · cases hins
    intro o ho
    rcases List.mem_append.mp ho with ho | ho
    · exact h o ho
    · rcases List.mem_singleton.mp ho with rfl
      exact ⟨hbh, fun k hk => by cases hk⟩

theorem OBound_processInputs {c : St} {txId : String} {bh m : Nat} (hbh : bh ≤ m) :
    ∀ {inputs : List TxInput} {os bs acc r},
      processInputs c txId bh inputs os bs acc = .ok r →
      OBound m os → OBound m r.outputs := by
  intro inputs
  induction inputs with
  | nil => intro os bs acc r h hos; cases h; exact hos
  | cons i rest ih =>
    intro os bs acc r h hos
    unfold processInputs at h
    split at h
    · cases h
    · exact ih h (OBound_mark hos hbh)

theorem OBound_processOutputs {txId : String} {bh m : Nat} (hbh : bh ≤ m) :
    ∀ {outs : List TxOutput} {i os bs acc r},
      processOutputs txId bh outs i os bs acc = .ok r →
      OBound m os → OBound m r.outputs := by
  intro outs
  induction outs with
  | nil => intro i os bs acc r h hos; cases h; exact hos
  | cons o rest ih =>
    intro i os bs acc r h hos
    unfold processOutputs at h
    split at h
    · cases h
    · rename_i os' hins
      exact ih h (OBound_insert hos hbh hins)

theorem OBound_processTransaction {c p : St} {tx : Transaction} {bh m : Nat} {p' : St}
    (hbh : bh ≤ m) (h : processTransaction c p tx bh = .ok p')
    (hos : OBound m p.outputs) : OBound m p'.outputs := by
  unfold processTransaction at h
  split at h
  · cases h
  · cases h
  · rename_i ri hin
    split at h
    · cases h
    · cases h
    · rename_i ro hout
      have h1 := OBound_processInputs hbh hin hos
      have h2 := OBound_processOutputs hbh hout h1
      by_cases hcond : tx.inputs.length > 0 ∧ ri.total ≠ ro.total
      · rw [if_pos hcond] at h; cases h
      · rw [if_neg hcond] at h; cases h; exact h2

theorem OBound_processTxs {c : St} {bh m : Nat} (hbh : bh ≤ m) :
    ∀ {txs : List Transaction} {p p' : St},
      processTxs c bh txs p = .ok p' → OBound m p.outputs → OBound m p'.outputs := by
  intro txs
  induction txs with
  | nil => intro p p' h hos; cases h; exact hos
  | cons tx rest ih =>
    intro p p' h hos
    unfold processTxs at h
    split at h
    · rename_i p₁ heq
      exact ih h (OBound_processTransaction hbh heq hos)
    · cases h
    · cases h

/-! ## The reachable-state invariant -/

/-- Invariant of every reachable committed state: the block heights are
exactly `1..n` in insertion order, and every output row's creation and
spend heights are bounded by the current height. -/
def StInv (s : St) : Prop :=
  (∃ n, s.blocks.map (fun b => b.height) = List.range' 1 n) ∧
  OBound (getCurrentHeight s) s.outputs

theorem Inv_empty : StInv St.empty := by
  refine ⟨⟨0, rfl⟩, ?_⟩
  intro o ho; cases ho

theorem Inv_applyAdd {s : St} (b : Block) (hInv : StInv s) : StInv (applyAdd s b) := by
  unfold applyAdd
  cases hadd : addBlock s b with
  | rejected e => exact hInv
  | thrown => exact hInv
  | ok s' =>
    obtain ⟨⟨n, hn⟩, hob⟩ := hInv
    have hcur : getCurrentHeight s = n := getCurrentHeight_of_range s n hn
    obtain ⟨hh, _, hptxs, hblocks⟩ := addBlock_ok_elim hadd
    have hmap : s'.blocks.map (fun b => b.height) = List.range' 1 (n + 1) := by
      rw [hblocks, List.map_append, hn, hh, hcur, List.range'_concat]
      simp [Nat.add_comm]
    have hcur' : getCurrentHeight s' = n + 1 := getCurrentHeight_of_range s' (n + 1) hmap
    refine ⟨⟨n + 1, hmap⟩, ?_⟩
    rw [hcur']
    have hstart : OBound (n + 1) s.outputs := OBound_mono hob (by omega)
    have hble : b.height ≤ n + 1 := by omega
    exact OBound_processTxs hble hptxs hstart

theorem Inv_applyRollback {s : St} (t : Nat) (hInv : StInv s) : StInv (applyRollback s t) := by
  unfold applyRollback
  cases hrb : rollback s t with
  | rejected e => exact hInv
  | thrown => exact hInv
  | ok s' =>
    obtain ⟨⟨n, hn⟩, _⟩ := hInv
    have hcur : getCurrentHeight s = n := getCurrentHeight_of_range s n hn
    show StInv s'
    simp only [rollback] at hrb
    by_cases hgt : t > getCurrentHeight s
    · rw [if_pos hgt] at hrb; cases hrb
    · rw [if_neg hgt] at hrb
      rw [hcur] at hgt
      have ht : t ≤ n := by omega
      cases hrb
      have hmap : (deleteBlocksAboveHeight s.blocks t).map (fun b => b.height)
          = List.range' 1 t := by
        unfold deleteBlocksAboveHeight
        rw [map_height_filter s.blocks (fun x => !decide (t < x)), hn,
          filter_range'_le n t ht]
      refine ⟨⟨t, hmap⟩, ?_⟩
      have hcur' : getCurrentHeight ⟨deleteBlocksAboveHeight s.blocks t,
          deleteOutputsAboveHeight (s.outputs.map (rollbackReset t)) t,
          recomputeBalances (deleteOutputsAboveHeight (s.outputs.map (rollbackReset t)) t) t⟩ = t :=
        getCurrentHeight_of_range _ t hmap
      rw [hcur']
      intro o ho
      unfold deleteOutputsAboveHeight at ho
      have hmem := List.mem_filter.mp ho
      obtain ⟨o₀, _, rfl⟩ := List.mem_map.mp hmem.1
      have hheight : (rollbackReset t o₀).block_height ≤ t := by
        have := hmem.2
        simp only [Bool.not_eq_eq_eq_not, Bool.not_true, decide_eq_false_iff_not] at this
        omega
      refine ⟨hheight, ?_⟩
      intro k hk
      unfold rollbackReset at hk
      by_cases hc : o₀.spent_at_height.any (fun k => t < k) = true
      · rw [if_pos hc] at hk; cases hk
      · rw [if_neg hc] at hk
        rcases hsp : o₀.spent_at_height with _ | k'
        · rw [hsp] at hk; cases hk
        · rw [hsp] at hk
          cases hk
          rw [hsp] at hc
          simp only [Option.any_some, decide_eq_true_eq] at hc
          omega

/-- Every reachable committed state satisfies the invariant. -/
theorem reachable_inv {s : St} (h : Reachable s) : StInv s := by
  induction h with
  | empty => exact Inv_empty
  | add b _ ih => exact Inv_applyAdd b ih
  | rb t _ ih => exact Inv_applyRollback t ih

/-! ## Claim theorems -/

/-- C1 (the claim fails on the code): the block `b2dsEx`, whose single
transaction spends the committed output `tx1:0` twice in the same atomic
pass, is accepted by `addBlock` instead of failing with
`UnspentOutputNotFound` — `getUnspentOutput` reads through the pool (a
second connection) and never sees the spent flag set earlier in the same
pass — so the spend is applied twice and `addr1`'s committed balance
becomes `-100` while `addr2` is credited 200 minted from nothing. -/
theorem C1_intra_block_double_spend_accepted :
    (addBlock s1ex b2dsEx).isOk = true ∧
    addBlock s1ex b2dsEx ≠ .rejected (.unspentOutputNotFound "tx1" 0) ∧
    getBalance s2dsEx "addr1" = -100 ∧
    getBalance s2dsEx "addr2" = 200 := by
  decide

/-- C2 (the claim fails on the code): accept `b1ex`, the double-spend
block `b2dsEx` and the empty block `b3ex`; rolling back to height 2 then
succeeds, but the rebuilt balance of `addr1` (0) differs from the balance
observed immediately after accepting the first two blocks (-100) — the
balance projection does not round-trip. -/
theorem C2_rollback_roundtrip_fails :
    (addBlock s2dsEx b3ex).isOk = true ∧
    (rollback s3dsEx 2).isOk = true ∧
    getBalance s2dsEx "addr1" = -100 ∧
    getBalance (applyRollback s3dsEx 2) "addr1" = 0 := by
  decide

/-- C3 (the claim fails on the code): `s2dsEx` is reachable (empty chain,
then `b1ex`, then the double-spend block `b2dsEx`), stores balance -100
for `addr1`, yet the sum of `value` over `addr1`'s outputs with
`spent == false` and `createdAtHeight <= currentHeight` is 0. -/
theorem C3_balance_invariant_fails :
    Reachable s2dsEx ∧ getBalance s2dsEx "addr1" = -100 ∧
    specLedgerBalance s2dsEx "addr1" = 0 :=
  ⟨Reachable.add b2dsEx (Reachable.add b1ex Reachable.empty), by decide, by decide⟩

/-- C4: whenever `addBlock` returns a `ValidationError`, the committed
state is exactly the state before the call — every effect the call had
applied to the open database transaction (block row, spent flags, new
outputs, balance deltas) is discarded by the `ROLLBACK`. -/
theorem C4_rejected_addBlock_state_unchanged (s : St) (b : Block) (e : VErr)
    (h : addBlock s b = .rejected e) : applyAdd s b = s := by
  unfold applyAdd
  rw [h]

/-- C4 witness: the unbalanced block `b2badEx` is rejected (with
`UnbalancedTransaction`, detected only after its spend and insert effects
were applied to the open transaction) and the committed state is
unchanged. -/
theorem C4_witness :
    addBlock s1ex b2badEx = .rejected (.unbalancedTransaction 100 150 "tx2") ∧
    applyAdd s1ex b2badEx = s1ex := by
  have h : addBlock s1ex b2badEx = .rejected (.unbalancedTransaction 100 150 "tx2") := by
    decide
  exact ⟨h, C4_rejected_addBlock_state_unchanged s1ex b2badEx _ h⟩

/-- C7: `addBlock` fails with `InvalidHeight` (expecting
`currentHeight + 1`, which is 1 on the empty chain) whenever the
candidate height differs from `currentHeight + 1`; consequently every
reachable state stores exactly the gapless, repeat-free height sequence
`1, 2, …, n` — at most one block per height. -/
theorem C7_height_check_and_gapless_heights :
    (∀ (s : St) (b : Block), b.height ≠ getCurrentHeight s + 1 →
      addBlock s b = .rejected (.invalidHeight (getCurrentHeight s + 1) b.height)) ∧
    (∀ s : St, Reachable s →
      ∃ n, s.blocks.map (fun br => br.height) = List.range' 1 n) := by
  constructor
  · intro s b hne
    simp only [addBlock]
    rw [if_pos hne]
  · intro s hs
    exact (reachable_inv hs).1

/-- C7 witness: a block at height 5 on the empty chain is rejected with
`InvalidHeight`, and the state reached by accepting `b1ex` carries the
height sequence `1..n`. -/
theorem C7_witness :
    addBlock St.empty ⟨"someid", 5, []⟩ = .rejected (.invalidHeight 1 5) ∧
    ∃ n, s1ex.blocks.map (fun br => br.height) = List.range' 1 n := by
  refine ⟨?_, C7_height_check_and_gapless_heights.2 s1ex (Reachable.add b1ex Reachable.empty)⟩
  exact C7_height_check_and_gapless_heights.1 St.empty ⟨"someid", 5, []⟩ (by decide)

/-- C6: (i) every transaction of an accepted block that has at least one
input conserves value — its committed input sum equals its declared
output sum; (ii) a coinbase transaction (zero inputs) is never rejected
with `UnbalancedTransaction`; (iii) whenever the input and output loops
both succeed, the transaction has at least one input and the sums differ,
`processTransaction` fails with exactly
`UnbalancedTransaction(inputSum, outputSum)`. -/
theorem C6_conservation :
    (∀ (s : St) (b : Block), (addBlock s b).isOk = true →
      ∀ tx ∈ b.transactions, tx.inputs ≠ [] →
        inputSumOf s tx.inputs = outputSumOf tx.outputs) ∧
    (∀ (s p : St) (tx : Transaction) (bh : Nat), tx.inputs = [] →
      ∀ iS oS tid, processTransaction s p tx bh ≠ .rejected (.unbalancedTransaction iS oS tid)) ∧
    (∀ (s p : St) (tx : Transaction) (bh : Nat) (ri ro : LoopResult),
      processInputs s tx.id bh tx.inputs p.outputs p.balances 0 = .ok ri →
      processOutputs tx.id bh tx.outputs 0 ri.outputs ri.balances 0 = .ok ro →
      tx.inputs ≠ [] → ri.total ≠ ro.total →
      processTransaction s p tx bh = .rejected (.unbalancedTransaction ri.total ro.total tx.id)) := by
  refine ⟨?_, ?_, ?_⟩
  · intro s b hok tx htx hne
    cases hadd : addBlock s b with
    | rejected e => rw [hadd] at hok; cases hok
    | thrown => rw [hadd] at hok; cases hok
    | ok s' =>
      obtain ⟨_, _, hptxs, _⟩ := addBlock_ok_elim hadd
      exact processTxs_conserves hptxs tx htx hne
  · intro s p tx bh hco iS oS tid h
    unfold processTransaction at h
    split at h
    · cases h
      rename_i heq
      obtain ⟨t, i, ht⟩ := processInputs_rejected heq
      cases ht
    · cases h
    · rename_i ri hin
      split at h
      · cases h
        rename_i heq
        exact absurd heq processOutputs_ne_rejected
      · cases h
      · rename_i ro hout
        by_cases hcond : tx.inputs.length > 0 ∧ ri.total ≠ ro.total
        · rw [hco] at hcond
          simp at hcond
        · rw [if_neg hcond] at h
          cases h
  · intro s p tx bh ri ro hin hout hne hdiff
    unfold processTransaction
    simp only [hin, hout]
    rw [if_pos ⟨List.length_pos.mpr hne, hdiff⟩]

/-- C6 witness: `b2nEx` (spending `tx1:0` for 100 into 60 + 40) is
accepted after `b1ex`, and its transaction conserves value. -/
theorem C6_witness :
    inputSumOf s1ex tx2nEx.inputs = outputSumOf tx2nEx.outputs :=
  C6_conservation.1 s1ex b2nEx (by decide) tx2nEx (by decide) (by decide)

/-- C8: (i) given the height check passes, `addBlock` fails with
`InvalidBlockId` — carrying the recomputed id and the supplied id —
exactly when the supplied id differs (byte for byte) from
`calculateBlockId` of the height and the transaction ids in supplied
order; (ii) `calculateBlockId` depends only on the height and the ordered
transaction ids; (iii) `calculateBlockId` is the lowercase-hex SHA-256 of
the decimal height concatenated with the transaction ids, pinned against
externally computed digests. -/
theorem C8_block_id_check :
    (∀ (s : St) (b : Block), b.height = getCurrentHeight s + 1 →
      (addBlock s b = .rejected
          (.invalidBlockId (calculateBlockId b.height b.transactions) b.id) ↔
        b.id ≠ calculateBlockId b.height b.transactions)) ∧
    (∀ (h : Nat) (t₁ t₂ : List Transaction),
      t₁.map (fun tx => tx.id) = t₂.map (fun tx => tx.id) →
      calculateBlockId h t₁ = calculateBlockId h t₂) ∧
    (∀ (h : Nat) (txs : List Transaction),
      calculateBlockId h txs = sha256Hex (toString h ++ String.join (txs.map (fun tx => tx.id)))) ∧
    calculateBlockId 1 [tx1ex]
      = "d1582b9e2cac15e170c39ef2e85855ffd7e6a820550a8ca16a2f016d366503dc" ∧
    sha256Hex "abc" = "ba7816bf8f01cfea414140de5dae2223b00361a396177a9cb410ff61f20015ad" := by
  refine ⟨?_, ?_, fun h txs => rfl, by decide, by decide⟩
  · intro s b hh
    constructor
    · intro hrej
      intro heq
      simp only [addBlock] at hrej
      rw [if_neg (not_not_intro hh), if_neg (not_not_intro heq)] at hrej
      split at hrej
      · cases hrej
      · rcases processTxs_rejected hrej with ⟨t, i, hti⟩ | ⟨a, b', t, habt⟩
        · cases hti
        · cases habt
    · intro hne
      simp only [addBlock]
      rw [if_neg (not_not_intro hh), if_pos hne]
  · intro h t₁ t₂ hids
    unfold calculateBlockId
    rw [hids]

/-- C8 witness: on the empty chain, a height-1 block with id
`"wrongid"` is rejected with `InvalidBlockId` carrying the recomputed
digest. -/
theorem C8_witness :
    addBlock St.empty ⟨"wrongid", 1, [tx1ex]⟩ = .rejected
      (.invalidBlockId (calculateBlockId 1 [tx1ex]) "wrongid") :=
  (C8_block_id_check.1 St.empty ⟨"wrongid", 1, [tx1ex]⟩ rfl).mpr (by decide)

/-- C10: (i) a thrown storage error in `addBlock` leaves the committed
state unchanged (the `catch` block issues `ROLLBACK` before rethrowing);
(ii) a block whose (coinbase) transaction re-creates an output identity
`(transactionId, outputIndex)` that already exists in the outputs table
violates the primary key: `addBlock` throws instead of returning a
`ValidationError`. -/
theorem C10_duplicate_output_identity_throws :
    (∀ (s : St) (b : Block), addBlock s b = .thrown → applyAdd s b = s) ∧
    (∀ (s : St) (b : Block) (tx : Transaction) (a : String) (v : Int),
      b.transactions = [tx] → tx.inputs = [] → tx.outputs = [⟨a, v⟩] →
      b.height = getCurrentHeight s + 1 →
      b.id = calculateBlockId b.height b.transactions →
      (∃ o ∈ s.outputs, o.tx_id = tx.id ∧ o.output_index = 0) →
      addBlock s b = .thrown) := by
  constructor
  · intro s b h
    unfold applyAdd
    rw [h]
  · intro s b tx a v hbt hin hout hh hid hex
    obtain ⟨o, ho, hoid, hoidx⟩ := hex
    simp only [addBlock]
    rw [if_neg (not_not_intro hh), if_neg (not_not_intro hid)]
    cases hins : insertBlock s.blocks b.id b.height with
    | none => rfl
    | some blocks' =>
      rw [hbt]
      have hany : s.outputs.any (fun o' => o'.tx_id == tx.id && o'.output_index == 0) = true := by
        refine List.any_eq_true.mpr ⟨o, ho, ?_⟩
        simp [hoid, hoidx]
      simp [processTxs, processTransaction, hin, processInputs, hout, processOutputs,
        insertOutput, hany]

/-- C10 witness: after accepting `b1ex` (which created output `(tx1, 0)`),
the block `b2dupEx` re-submitting a transaction with id `tx1` makes
`addBlock` throw, and the committed state stays `s1ex`. -/
theorem C10_witness :
    addBlock s1ex b2dupEx = .thrown ∧ applyAdd s1ex b2dupEx = s1ex := by
  have h : addBlock s1ex b2dupEx = .thrown :=
    C10_duplicate_output_identity_throws.2 s1ex b2dupEx ⟨"tx1", [], [⟨"addrX", 5⟩]⟩ "addrX" 5
      rfl rfl rfl (by decide) (by decide) (by decide)
  exact ⟨h, C10_duplicate_output_identity_throws.1 s1ex b2dupEx h⟩

/-- C5 counterexample: the intra-block chain block `bChainEx`, whose
second transaction spends the output created by the first transaction of
the same block, is rejected by `addBlock` with `UnspentOutputNotFound` —
the code does not accept such an input. -/
theorem C5_counterexample :
    addBlock St.empty bChainEx = .rejected (.unspentOutputNotFound "tx1" 0) := by
  decide

/-- C5 (amended): the transaction loop does run in submission order, but
`getUnspentOutput` reads only the committed state, so an input that
references an output created by an earlier transaction of the same block
(and not existing in the committed state) is rejected with
`UnspentOutputNotFound` instead of being accepted. -/
theorem C5_intra_block_chain_rejected
    (s : St) (b : Block) (t1 t2 : Transaction) (a : String) (v : Int) (rest : List TxInput)
    (hbt : b.transactions = [t1, t2])
    (h1in : t1.inputs = []) (h1out : t1.outputs = [⟨a, v⟩])
    (h2in : t2.inputs = ⟨t1.id, 0⟩ :: rest)
    (hfresh : ∀ o ∈ s.outputs, o.tx_id ≠ t1.id)
    (hbid : ∀ br ∈ s.blocks, br.id ≠ b.id)
    (hh : b.height = getCurrentHeight s + 1)
    (hid : b.id = calculateBlockId b.height b.transactions) :
    addBlock s b = .rejected (.unspentOutputNotFound t1.id 0) := by
  have hnb : s.blocks.any (fun br => br.id == b.id || br.height == b.height) = false := by
    refine List.any_eq_false.mpr ?_
    intro br hbr
    have h1 := hbid br hbr
    have h2 : br.height ≤ getCurrentHeight s := height_le_getCurrentHeight s br hbr
    simp only [Bool.or_eq_true, beq_iff_eq, not_or]
    exact ⟨h1, by omega⟩
  have hinsb : insertBlock s.blocks b.id b.height = some (s.blocks ++ [⟨b.id, b.height⟩]) := by
    unfold insertBlock
    rw [hnb]
    rfl
  have hfresh' : s.outputs.any (fun o => o.tx_id == t1.id && o.output_index == 0) = false := by
    refine List.any_eq_false.mpr ?_
    intro o ho
    simp [hfresh o ho]
  have hlook : getUnspentOutput s t1.id 0 = none := by
    unfold getUnspentOutput
    refine List.find?_eq_none.mpr ?_
    intro o ho
    simp [hfresh o ho]
  simp only [addBlock]
  rw [if_neg (not_not_intro hh), if_neg (not_not_intro hid), hinsb, hbt]
  simp [processTxs, processTransaction, h1in, processInputs, h1out, processOutputs,
    insertOutput, hfresh', h2in, hlook]

/-- C5 witness for the amended claim: on the committed state `s1ex`, a
height-2 block whose second transaction `txB` spends the output created by
its first transaction `txA` is rejected with `UnspentOutputNotFound` for
`txA:0`. -/
theorem C5_witness :
    addBlock s1ex
      ⟨"0320e3988ecf063bf77cce50e6f0e0959e4dc6e371dac214f751f28a2232046a", 2,
        [⟨"txA", [], [⟨"addrA", 7⟩]⟩, ⟨"txB", [⟨"txA", 0⟩], [⟨"addrB", 7⟩]⟩]⟩
      = .rejected (.unspentOutputNotFound "txA" 0) :=
  C5_intra_block_chain_rejected s1ex _ ⟨"txA", [], [⟨"addrA", 7⟩]⟩
    ⟨"txB", [⟨"txA", 0⟩], [⟨"addrB", 7⟩]⟩ "addrA" 7 []
    rfl rfl rfl rfl (by decide) (by decide) (by decide) (by decide)

/-- `rollbackReset` never changes the creation height of a row. -/
theorem rollbackReset_block_height (t : Nat) (o : OutputRecord) :
    (rollbackReset t o).block_height = o.block_height := by
  unfold rollbackReset
  split <;> rfl

/-- C9 counterexample: on the reachable state `s2dsEx` (current height 2),
`rollback 2` succeeds but is **not** a no-op: the balance projection is
rebuilt from the outputs table and `addr1`'s balance changes from -100
to 0. -/
theorem C9_counterexample :
    getCurrentHeight s2dsEx = 2 ∧
    (rollback s2dsEx 2).isOk = true ∧
    getBalance s2dsEx "addr1" = -100 ∧
    getBalance (applyRollback s2dsEx 2) "addr1" = 0 := by
  decide

/-- C9 (amended): `rollback` fails with `TargetAboveCurrent` exactly when
the target exceeds the current height; on success the surviving blocks
are exactly those at height ≤ target, the surviving outputs are exactly
the rows created at height ≤ target with any spend above the target reset
(`spent = false`, `spent_by_tx`/`spent_at_height` cleared), and no
surviving row records a spend above the target.  When the target equals
the current height of a reachable state the blocks and outputs tables are
unchanged — but the balance projection is still rebuilt from the outputs
table (see the counterexample), so the call is not a no-op in general. -/
theorem C9_rollback_mechanics (s : St) (t : Nat) :
    (rollback s t = .rejected .targetAboveCurrent ↔ getCurrentHeight s < t) ∧
    (t ≤ getCurrentHeight s → ∃ s', rollback s t = .ok s' ∧
      (∀ br, br ∈ s'.blocks ↔ br ∈ s.blocks ∧ br.height ≤ t) ∧
      (∀ o, o ∈ s'.outputs ↔
        ∃ o₀ ∈ s.outputs, o₀.block_height ≤ t ∧ o = rollbackReset t o₀) ∧
      (∀ o ∈ s'.outputs, o.block_height ≤ t ∧
        ∀ k, o.spent_at_height = some k → k ≤ t) ∧
      (Reachable s → t = getCurrentHeight s →
        s'.blocks = s.blocks ∧ s'.outputs = s.outputs)) := by
  constructor
  · by_cases hgt : t > getCurrentHeight s
    · exact ⟨fun _ => hgt, fun _ => by simp only [rollback]; rw [if_pos hgt]⟩
    · constructor
      · intro hrej
        simp only [rollback] at hrej
        rw [if_neg hgt] at hrej
        cases hrej
      · intro hlt
        exact absurd hlt hgt
  · intro hle
    simp only [rollback]
    rw [if_neg (by omega : ¬ t > getCurrentHeight s)]
    refine ⟨_, rfl, ?_, ?_, ?_, ?_⟩
    · intro br
      unfold deleteBlocksAboveHeight
      rw [List.mem_filter]
      simp only [Bool.not_eq_eq_eq_not, Bool.not_true, decide_eq_false_iff_not, not_lt]
    · intro o
      unfold deleteOutputsAboveHeight
      rw [List.mem_filter]
      constructor
      · intro ⟨hmem, hcond⟩
        obtain ⟨o₀, ho₀, rfl⟩ := List.mem_map.mp hmem
        refine ⟨o₀, ho₀, ?_, rfl⟩
        rw [← rollbackReset_block_height t o₀]
        simp only [Bool.not_eq_eq_eq_not, Bool.not_true, decide_eq_false_iff_not, not_lt] at hcond
        exact hcond
      · rintro ⟨o₀, ho₀, hbh, rfl⟩
        refine ⟨List.mem_map.mpr ⟨o₀, ho₀, rfl⟩, ?_⟩
        simp only [Bool.not_eq_eq_eq_not, Bool.not_true, decide_eq_false_iff_not, not_lt]
        rw [rollbackReset_block_height]
        exact hbh
    · intro o ho
      unfold deleteOutputsAboveHeight at ho
      have hmem := List.mem_filter.mp ho
      obtain ⟨o₀, _, rfl⟩ := List.mem_map.mp hmem.1
      constructor
      · have := hmem.2
        simp only [Bool.not_eq_eq_eq_not, Bool.not_true, decide_eq_false_iff_not, not_lt] at this
        exact this
      · intro k hk
        unfold rollbackReset at hk
        by_cases hc : o₀.spent_at_height.any (fun k => t < k) = true
        · rw [if_pos hc] at hk; cases hk
        · rw [if_neg hc] at hk
          rcases hsp : o₀.spent_at_height with _ | k'
          · rw [hsp] at hk; cases hk
          · rw [hsp] at hk
            cases hk
            rw [hsp] at hc
            simp only [Option.any_some, decide_eq_true_eq] at hc
            omega
    · intro hreach ht
      have hinv := reachable_inv hreach
      obtain ⟨_, hob⟩ := hinv
      constructor
      · unfold deleteBlocksAboveHeight
        refine List.filter_eq_self.mpr ?_
        intro br hbr
        have := height_le_getCurrentHeight s br hbr
        simp only [Bool.not_eq_eq_eq_not, Bool.not_true, decide_eq_false_iff_not, not_lt]
        omega
      · have hid : s.outputs.map (rollbackReset t) = s.outputs := by
          have : ∀ o ∈ s.outputs, rollbackReset t o = o := by
            intro o ho
            obtain ⟨_, hsp⟩ := hob o ho
            unfold rollbackReset
            rw [if_neg ?_]
            rcases hspv : o.spent_at_height with _ | k
            · simp
            · simp only [hspv, Option.any_some, decide_eq_true_eq]
              have := hsp k hspv
              omega
          calc s.outputs.map (rollbackReset t)
              = s.outputs.map id := List.map_congr_left this
            _ = s.outputs := List.map_id s.outputs
        rw [hid]
        unfold deleteOutputsAboveHeight
        refine List.filter_eq_self.mpr ?_
        intro o ho
        obtain ⟨hbh, _⟩ := hob o ho
        simp only [Bool.not_eq_eq_eq_not, Bool.not_true, decide_eq_false_iff_not, not_lt]
        omega

/-- C9 witness for the amended claim: rolling `s1ex` back to its current
height 1 succeeds and leaves the blocks and outputs tables unchanged. -/
theorem C9_witness :
    ∃ s', rollback s1ex 1 = .ok s' ∧ s'.blocks = s1ex.blocks ∧ s'.outputs = s1ex.outputs := by
  obtain ⟨s', hok, _, _, _, hnoop⟩ := (C9_rollback_mechanics s1ex 1).2 (by decide)
  obtain ⟨hb, ho⟩ := hnoop (Reachable.add b1ex Reachable.empty) (by decide)
  exact ⟨s', hok, hb, ho⟩
